import Mathlib

/-!
Shallow embedding of the tinyargs argument-parser library
(src/src/tinyargs.c, src/include/tinyargs.h).

C strings that may be NULL (`short_name`, `long_name`, `value`) are
modelled as `Option String`.  The entry array plus its count is
modelled as a `List arg_t`.  The parser's `int` result together with
the diagnostic it prints is modelled as `Option parse_error_t`
(`none` = return 1, `some e` = return 0 after printing the message
corresponding to `e`, with the `%s` payload stored in `e`).
-/

/-- `arg_type_t` from tinyargs.h. -/
inductive arg_type_t where
  | ARG_TYPE_FLAG
  | ARG_TYPE_VALUE
deriving DecidableEq, Repr

/-- `arg_t` from tinyargs.h. -/
structure arg_t where
  short_name : Option String
  long_name : Option String
  type : arg_type_t
  required : Bool
  set : Bool
  value : Option String
  description : String
deriving DecidableEq, Repr

/-- `arg_parser_t` from tinyargs.h; `count` is `args.length`. -/
structure arg_parser_t where
  args : List arg_t
deriving DecidableEq, Repr

/-- The three diagnostics `arg_parser_parse` can print before returning 0,
with the text interpolated into the message as payload. -/
inductive parse_error_t where
  | UnrecognizedArgument (tok : String)
  | MissingValue (tok : String)
  | MissingRequiredArgument (long_name : Option String)
deriving DecidableEq, Repr

/-- `arg_parser_create`: empty registry. -/
def arg_parser_create : arg_parser_t := ⟨[]⟩

/-- `arg_parser_add`: append one entry with `set = false`, `value = NULL`. -/
def arg_parser_add (p : arg_parser_t) (short_name long_name : Option String)
    (type : arg_type_t) (required : Bool) (description : String) : arg_parser_t :=
  ⟨p.args ++ [{ short_name := short_name, long_name := long_name, type := type,
                required := required, set := false, value := none,
                description := description }]⟩

/-- The match condition used by all four scans:
`(arg->short_name && strcmp(x, arg->short_name) == 0) ||
 (arg->long_name && strcmp(x, arg->long_name) == 0)`.
A NULL name never matches. -/
def arg_matches (a : arg_t) (tok : String) : Bool :=
  (match a.short_name with
   | some s => tok == s
   | none => false) ||
  (match a.long_name with
   | some l => tok == l
   | none => false)

/-- The inner `for (j...)` scan of `arg_parser_parse`: locate the first
entry matching the token, returned as a zipper (entries before it, the
entry, entries after it) so the caller can update it in place. -/
def find_match : List arg_t → String → Option (List arg_t × arg_t × List arg_t)
  | [], _ => none
  | a :: as, tok =>
    if arg_matches a tok then some ([], a, as)
    else
      match find_match as tok with
      | none => none
      | some (pre, m, post) => some (a :: pre, m, post)

/-- The outer token loop of `arg_parser_parse` (`for (i = 1; i < argc; ...)`),
already past the program-name token.  Returns the mutated entry list and
`some` error if the loop returned 0 early. -/
def parse_tokens : List arg_t → List String → List arg_t × Option parse_error_t
  | args, [] => (args, none)
  | args, tok :: rest =>
    match find_match args tok with
    | none => (args, some (parse_error_t.UnrecognizedArgument tok))
    | some (pre, a, post) =>
      if a.type = arg_type_t.ARG_TYPE_VALUE then
        match rest with
        | v :: rest2 =>
          parse_tokens (pre ++ { a with set := true, value := some v } :: post) rest2
        | [] =>
          if a.required then
            (pre ++ { a with set := true } :: post,
             some (parse_error_t.MissingValue tok))
          else
            -- falls through; the loop then exits (no token is left)
            (pre ++ { a with set := true } :: post, none)
      else
        parse_tokens (pre ++ { a with set := true } :: post) rest

/-- The final required-argument scan of `arg_parser_parse`; the diagnostic
prints `args[j].long_name`. -/
def check_required : List arg_t → Option parse_error_t
  | [] => none
  | a :: as =>
    if a.required && !a.set then
      some (parse_error_t.MissingRequiredArgument a.long_name)
    else
      check_required as

/-- `arg_parser_parse`: skip `argv[0]`, run the token loop, then (only if it
did not return early) the required-argument scan. -/
def arg_parser_parse (p : arg_parser_t) (argv : List String) :
    arg_parser_t × Option parse_error_t :=
  match parse_tokens p.args (argv.drop 1) with
  | (args1, some e) => (⟨args1⟩, some e)
  | (args1, none) =>
    match check_required args1 with
    | some e => (⟨args1⟩, some e)
    | none => (⟨args1⟩, none)

/-- `arg_parser_get_value`: first matching entry's `value`, NULL if none
matches.  (`strcmp(name, x) == 0` is symmetric, so `arg_matches` is the
same condition as in the source loop.) -/
def arg_parser_get_value (p : arg_parser_t) (name : String) : Option String :=
  match p.args.find? (fun a => arg_matches a name) with
  | some a => a.value
  | none => none

/-- `arg_parser_is_flag_set`: first matching entry's `set`, false if none
matches. -/
def arg_parser_is_flag_set (p : arg_parser_t) (name : String) : Bool :=
  match p.args.find? (fun a => arg_matches a name) with
  | some a => a.set
  | none => false

/-- `arg_parser_has`: first matching entry decides; `set` for a flag,
`value != NULL` for a value option.  (The if/else-if in the source covers
both enum constructors, so the loop always returns at the first match.) -/
def arg_parser_has (p : arg_parser_t) (name : String) : Bool :=
  match p.args.find? (fun a => arg_matches a name) with
  | some a =>
    match a.type with
    | arg_type_t.ARG_TYPE_FLAG => a.set
    | arg_type_t.ARG_TYPE_VALUE => a.value.isSome
  | none => false

/-! ## Characterisation lemmas for the scans -/

theorem arg_matches_iff (a : arg_t) (tok : String) :
    arg_matches a tok = true ↔
      a.short_name = some tok ∨ a.long_name = some tok := by
  unfold arg_matches
  rw [Bool.or_eq_true]
  apply or_congr
  · cases a.short_name with
    | none => simp
    | some s =>
      show (tok == s) = true ↔ _
      rw [beq_iff_eq]
      constructor
      · intro h; rw [h]
      · intro h; injection h with h; rw [h]
  · cases a.long_name with
    | none => simp
    | some l =>
      show (tok == l) = true ↔ _
      rw [beq_iff_eq]
      constructor
      · intro h; rw [h]
      · intro h; injection h with h; rw [h]

theorem arg_matches_eq_false_iff (a : arg_t) (tok : String) :
    arg_matches a tok = false ↔
      a.short_name ≠ some tok ∧ a.long_name ≠ some tok := by
  rw [← Bool.not_eq_true, arg_matches_iff]
  tauto

theorem find_match_complete (tok : String) (a : arg_t) :
    ∀ (pre post : List arg_t), (∀ b ∈ pre, arg_matches b tok = false) →
      arg_matches a tok = true →
      find_match (pre ++ a :: post) tok = some (pre, a, post)
  | [], _, _, ha => by simp [find_match, ha]
  | b :: pre, post, hpre, ha => by
    have hb : arg_matches b tok = false := hpre b (by simp)
    have ih := find_match_complete tok a pre post
      (fun c hc => hpre c (by simp [hc])) ha
    simp [find_match, hb, ih]

theorem find_match_of_no_match (tok : String) :
    ∀ (args : List arg_t), (∀ b ∈ args, arg_matches b tok = false) →
      find_match args tok = none
  | [], _ => rfl
  | b :: args, h => by
    have hb : arg_matches b tok = false := h b (by simp)
    have ih := find_match_of_no_match tok args (fun c hc => h c (by simp [hc]))
    simp [find_match, hb, ih]

theorem find_match_sound (tok : String) :
    ∀ (args pre post : List arg_t) (a : arg_t),
      find_match args tok = some (pre, a, post) →
      args = pre ++ a :: post ∧ arg_matches a tok = true ∧
        ∀ b ∈ pre, arg_matches b tok = false := by
  intro args
  induction args with
  | nil => intro pre post a h; simp [find_match] at h
  | cons b as ih =>
    intro pre post a h
    simp only [find_match] at h
    by_cases hb : arg_matches b tok = true
    · rw [if_pos hb] at h
      simp only [Option.some.injEq, Prod.mk.injEq] at h
      obtain ⟨h1, h2, h3⟩ := h
      subst h1; subst h2; subst h3
      exact ⟨rfl, hb, by simp⟩
    · rw [if_neg hb] at h
      rw [Bool.not_eq_true] at hb
      cases hm : find_match as tok with
      | none => rw [hm] at h; simp at h
      | some x =>
        obtain ⟨pre2, m, post2⟩ := x
        rw [hm] at h
        simp only [Option.some.injEq, Prod.mk.injEq] at h
        obtain ⟨h1, h2, h3⟩ := h
        subst h1; subst h2; subst h3
        obtain ⟨hsplit, hma, hpre⟩ := ih pre2 post2 m hm
        refine ⟨by rw [hsplit]; simp, hma, ?_⟩
        intro c hc
        rcases List.mem_cons.mp hc with rfl | hc2
        · exact hb
        · exact hpre c hc2

theorem find?_first {α : Type} (f : α → Bool) (a : α) :
    ∀ (pre post : List α), (∀ b ∈ pre, f b = false) → f a = true →
      (pre ++ a :: post).find? f = some a
  | [], post, _, ha => by simp [List.find?_cons_of_pos post ha]
  | b :: pre, post, h, ha => by
    have hb : f b = false := h b (by simp)
    have ih := find?_first f a pre post (fun c hc => h c (by simp [hc])) ha
    rw [List.cons_append, List.find?_cons_of_neg _ (by simp [hb]), ih]

theorem find?_sound {α : Type} (f : α → Bool) :
    ∀ (l : List α) (a : α), l.find? f = some a →
      ∃ pre post, l = pre ++ a :: post ∧ f a = true ∧
        ∀ b ∈ pre, f b = false := by
  intro l
  induction l with
  | nil => intro a h; simp at h
  | cons b bs ih =>
    intro a h
    by_cases hb : f b = true
    · rw [List.find?_cons_of_pos _ hb] at h
      obtain rfl : b = a := by simpa using h
      exact ⟨[], bs, rfl, hb, by simp⟩
    · rw [List.find?_cons_of_neg _ hb] at h
      obtain ⟨pre, post, rfl, hfa, hpre⟩ := ih a h
      refine ⟨b :: pre, post, rfl, hfa, ?_⟩
      intro c hc
      rcases List.mem_cons.mp hc with rfl | hc2
      · exact Bool.not_eq_true _ ▸ hb
      · exact hpre c hc2

theorem check_required_first (a : arg_t) :
    ∀ (pre post : List arg_t),
      (∀ b ∈ pre, b.required = false ∨ b.set = true) →
      a.required = true → a.set = false →
      check_required (pre ++ a :: post) =
        some (parse_error_t.MissingRequiredArgument a.long_name)
  | [], post, _, hreq, hset => by simp [check_required, hreq, hset]
  | b :: pre, post, h, hreq, hset => by
    have hb : (b.required && !b.set) = false := by
      rcases h b (by simp) with h1 | h1 <;> simp [h1]
    have ih := check_required_first a pre post
      (fun c hc => h c (by simp [hc])) hreq hset
    simp [check_required, hb, ih]

/-! ## Sample registries for the concrete instances -/

def sample_help : arg_t :=
  ⟨some "-h", some "--help", arg_type_t.ARG_TYPE_FLAG, false, false, none, "show help"⟩

def sample_name : arg_t :=
  ⟨some "-n", some "--name", arg_type_t.ARG_TYPE_VALUE, true, false, none, "user name"⟩

def sample_out : arg_t :=
  ⟨some "-o", some "--out", arg_type_t.ARG_TYPE_VALUE, false, false, none, "output file"⟩

def sample_hidden : arg_t :=
  ⟨none, none, arg_type_t.ARG_TYPE_FLAG, false, false, none, "nameless entry"⟩

/-! ## Claims -/

/-- Claim C1: `arg_parser_parse` walks the tokens left to right starting
after the program-name token (the result does not depend on `argv[0]`);
a token equal (exact text equality) to the first matching entry's
`short_name` or `long_name` sets that entry's `set`; for a `Flag` entry
the scan advances one token, and for a `Value` entry with a following
token that token is stored as `value` and the scan advances past both. -/
theorem parse_step_flag_and_value
    (args pre post : List arg_t) (a : arg_t) (tok : String)
    (hsplit : args = pre ++ a :: post)
    (hmatch : a.short_name = some tok ∨ a.long_name = some tok)
    (hfirst : ∀ b ∈ pre, b.short_name ≠ some tok ∧ b.long_name ≠ some tok) :
    (∀ (p : arg_parser_t) (prog1 prog2 : String) (toks : List String),
        arg_parser_parse p (prog1 :: toks) = arg_parser_parse p (prog2 :: toks)) ∧
    (a.type = arg_type_t.ARG_TYPE_FLAG →
      ∀ rest : List String,
        parse_tokens args (tok :: rest) =
          parse_tokens (pre ++ { a with set := true } :: post) rest) ∧
    (a.type = arg_type_t.ARG_TYPE_VALUE →
      ∀ (v : String) (rest : List String),
        parse_tokens args (tok :: v :: rest) =
          parse_tokens
            (pre ++ { a with set := true, value := some v } :: post) rest) := by
  have hm : arg_matches a tok = true := (arg_matches_iff a tok).mpr hmatch
  have hfm : find_match args tok = some (pre, a, post) := by
    rw [hsplit]
    exact find_match_complete tok a pre post
      (fun b hb => (arg_matches_eq_false_iff b tok).mpr (hfirst b hb)) hm
  refine ⟨fun p prog1 prog2 toks => rfl, ?_, ?_⟩
  · intro hty rest
    simp only [parse_tokens, hfm]
    rw [if_neg (by simp [hty])]
  · intro hty v rest
    simp only [parse_tokens, hfm]
    rw [if_pos hty]

/-- Concrete instance of C1: a flag token sets the entry and the scan
moves on to the rest of the tokens. -/
theorem parse_step_flag_and_value_witness :
    parse_tokens [sample_help, sample_name] ["-h", "--name", "Alice"] =
      parse_tokens [{ sample_help with set := true }, sample_name]
        ["--name", "Alice"] :=
  (parse_step_flag_and_value [sample_help, sample_name] [] [sample_name]
      sample_help "-h" rfl (Or.inl rfl) (by simp)).2.1 rfl ["--name", "Alice"]

/-- Claim C2: when the token loop reaches a token that no entry matches
by short or long name, parsing stops at once with `UnrecognizedArgument`
for that token; the remaining tokens are never looked at, and the entry
states accumulated so far (mutated for earlier tokens, still unset for
entries that would have matched later tokens) are returned exactly as
they are. -/
theorem parse_unrecognized_fails
    (args : List arg_t) (tok : String) (rest : List String)
    (h : ∀ b ∈ args, b.short_name ≠ some tok ∧ b.long_name ≠ some tok) :
    parse_tokens args (tok :: rest) =
      (args, some (parse_error_t.UnrecognizedArgument tok)) ∧
    (∀ p : arg_parser_t, p.args = args →
      ∀ prog : String,
        arg_parser_parse p (prog :: tok :: rest) =
          (p, some (parse_error_t.UnrecognizedArgument tok))) := by
  have hfm : find_match args tok = none :=
    find_match_of_no_match tok args
      (fun b hb => (arg_matches_eq_false_iff b tok).mpr (h b hb))
  have h1 : parse_tokens args (tok :: rest) =
      (args, some (parse_error_t.UnrecognizedArgument tok)) := by
    simp only [parse_tokens, hfm]
  refine ⟨h1, ?_⟩
  intro p hp prog
  obtain ⟨pargs⟩ := p
  have hp2 : pargs = args := hp
  subst hp2
  unfold arg_parser_parse
  simp [h1]

/-- Concrete instance of C2: an unknown token aborts parsing with the
registry untouched. -/
theorem parse_unrecognized_fails_witness :
    arg_parser_parse ⟨[sample_help, sample_name]⟩ ["prog", "--bogus", "-h"] =
      (⟨[sample_help, sample_name]⟩,
       some (parse_error_t.UnrecognizedArgument "--bogus")) :=
  (parse_unrecognized_fails [sample_help, sample_name] "--bogus" ["-h"]
      (by decide)).2 ⟨[sample_help, sample_name]⟩ rfl "prog"

/-- Claim C3: when the token loop finishes without error and some entry
with `required = true` is still unset, `arg_parser_parse` fails with
`MissingRequiredArgument`; the reported name is the first such entry's
`long_name` (that is what the diagnostic prints). -/
theorem parse_missing_required_reported
    (p : arg_parser_t) (argv : List String)
    (pre post : List arg_t) (a : arg_t)
    (hrun : parse_tokens p.args (argv.drop 1) = (pre ++ a :: post, none))
    (hreq : a.required = true) (hset : a.set = false)
    (hpre : ∀ b ∈ pre, b.required = false ∨ b.set = true) :
    arg_parser_parse p argv =
      (⟨pre ++ a :: post⟩,
       some (parse_error_t.MissingRequiredArgument a.long_name)) := by
  unfold arg_parser_parse
  rw [hrun]
  show (match check_required (pre ++ a :: post) with
        | some e => ((⟨pre ++ a :: post⟩ : arg_parser_t), some e)
        | none => ((⟨pre ++ a :: post⟩ : arg_parser_t), none)) = _
  rw [check_required_first a pre post hpre hreq hset]

/-- Concrete instance of C3: a required option absent from the input is
reported by its long name. -/
theorem parse_missing_required_reported_witness :
    arg_parser_parse ⟨[sample_help, sample_name]⟩ ["prog", "-h"] =
      (⟨[{ sample_help with set := true }, sample_name]⟩,
       some (parse_error_t.MissingRequiredArgument (some "--name"))) :=
  parse_missing_required_reported ⟨[sample_help, sample_name]⟩ ["prog", "-h"]
    [{ sample_help with set := true }] [] sample_name (by decide) rfl rfl
    (by decide)

/-- Claim C4: a `Value`-kind, `required = true` entry whose token is the
last token of the vector (no following token is left to serve as its
value) makes the token loop fail immediately with `MissingValue` for
that token. -/
theorem parse_missing_value_required
    (args pre post : List arg_t) (a : arg_t) (tok : String)
    (hsplit : args = pre ++ a :: post)
    (hmatch : a.short_name = some tok ∨ a.long_name = some tok)
    (hfirst : ∀ b ∈ pre, b.short_name ≠ some tok ∧ b.long_name ≠ some tok)
    (htype : a.type = arg_type_t.ARG_TYPE_VALUE)
    (hreq : a.required = true) :
    parse_tokens args [tok] =
      (pre ++ { a with set := true } :: post,
       some (parse_error_t.MissingValue tok)) := by
  have hm : arg_matches a tok = true := (arg_matches_iff a tok).mpr hmatch
  have hfm : find_match args tok = some (pre, a, post) := by
    rw [hsplit]
    exact find_match_complete tok a pre post
      (fun b hb => (arg_matches_eq_false_iff b tok).mpr (hfirst b hb)) hm
  simp only [parse_tokens, hfm]
  rw [if_pos htype, if_pos hreq]

/-- Concrete instance of C4: a required value option as last token. -/
theorem parse_missing_value_required_witness :
    parse_tokens [sample_help, sample_name] ["-n"] =
      ([sample_help, { sample_name with set := true }],
       some (parse_error_t.MissingValue "-n")) :=
  parse_missing_value_required [sample_help, sample_name] [sample_help] []
    sample_name "-n" rfl (Or.inl rfl) (by decide) rfl rfl

/-- Claim C5: a `Value`-kind, `required = false` entry whose token is the
last token does not make the token loop fail: the entry's `set` becomes
true while its `value` field is left untouched (so it stays absent), and
the loop finishes with no error; `arg_parser_parse` then still runs the
required-argument scan, so the whole parse succeeds when no other
failure triggers. -/
theorem parse_missing_value_optional
    (args pre post : List arg_t) (a : arg_t) (tok : String)
    (hsplit : args = pre ++ a :: post)
    (hmatch : a.short_name = some tok ∨ a.long_name = some tok)
    (hfirst : ∀ b ∈ pre, b.short_name ≠ some tok ∧ b.long_name ≠ some tok)
    (htype : a.type = arg_type_t.ARG_TYPE_VALUE)
    (hreq : a.required = false) :
    parse_tokens args [tok] = (pre ++ { a with set := true } :: post, none) := by
  have hm : arg_matches a tok = true := (arg_matches_iff a tok).mpr hmatch
  have hfm : find_match args tok = some (pre, a, post) := by
    rw [hsplit]
    exact find_match_complete tok a pre post
      (fun b hb => (arg_matches_eq_false_iff b tok).mpr (hfirst b hb)) hm
  simp only [parse_tokens, hfm]
  rw [if_pos htype, if_neg (by simp [hreq])]

/-- Concrete instance of C5: a non-required value option as last token is
marked set, keeps no value, and the whole parse succeeds. -/
theorem parse_missing_value_optional_witness :
    parse_tokens [sample_help, sample_out] ["-o"] =
      ([sample_help, { sample_out with set := true }], none) :=
  parse_missing_value_optional [sample_help, sample_out] [sample_help] []
    sample_out "-o" rfl (Or.inl rfl) (by decide) rfl rfl

/-- A later entry sharing `--help` as long name, with state that would
answer queries differently from the first entry. -/
def sample_dup : arg_t :=
  ⟨none, some "--help", arg_type_t.ARG_TYPE_VALUE, false, true, some "x", "duplicate"⟩

/-- Claim C6: `arg_parser_has name` returns true exactly when some entry
matches `name` by short or long name and, for the first such entry,
`set` is true if it is `Flag`-kind and `value` is present if it is
`Value`-kind; it returns false otherwise, including when no entry
matches. -/
theorem has_iff_first_match (p : arg_parser_t) (name : String) :
    arg_parser_has p name = true ↔
      ∃ pre a post, p.args = pre ++ a :: post ∧
        (a.short_name = some name ∨ a.long_name = some name) ∧
        (∀ b ∈ pre, b.short_name ≠ some name ∧ b.long_name ≠ some name) ∧
        ((a.type = arg_type_t.ARG_TYPE_FLAG ∧ a.set = true) ∨
         (a.type = arg_type_t.ARG_TYPE_VALUE ∧ a.value.isSome = true)) := by
  constructor
  · intro h
    unfold arg_parser_has at h
    cases hf : p.args.find? (fun b => arg_matches b name) with
    | none => rw [hf] at h; simp at h
    | some a =>
      rw [hf] at h
      obtain ⟨pre, post, hsplit, hma, hpre⟩ := find?_sound _ p.args a hf
      refine ⟨pre, a, post, hsplit,
        (arg_matches_iff a name).mp hma,
        (fun b hb => (arg_matches_eq_false_iff b name).mp (hpre b hb)), ?_⟩
      have h2 : (match a.type with
          | arg_type_t.ARG_TYPE_FLAG => a.set
          | arg_type_t.ARG_TYPE_VALUE => a.value.isSome) = true := h
      cases hty : a.type with
      | ARG_TYPE_FLAG => rw [hty] at h2; exact Or.inl ⟨rfl, h2⟩
      | ARG_TYPE_VALUE => rw [hty] at h2; exact Or.inr ⟨rfl, h2⟩
  · rintro ⟨pre, a, post, hsplit, hmatch, hfirst, hstate⟩
    have hf : p.args.find? (fun b => arg_matches b name) = some a := by
      rw [hsplit]
      exact find?_first _ a pre post
        (fun b hb => (arg_matches_eq_false_iff b name).mpr (hfirst b hb))
        ((arg_matches_iff a name).mpr hmatch)
    unfold arg_parser_has
    rw [hf]
    show (match a.type with
        | arg_type_t.ARG_TYPE_FLAG => a.set
        | arg_type_t.ARG_TYPE_VALUE => a.value.isSome) = true
    rcases hstate with ⟨hty, hs⟩ | ⟨hty, hv⟩
    · rw [hty]; exact hs
    · rw [hty]; exact hv

/-- Claim C7: `arg_parser_get_value`, `arg_parser_is_flag_set` and
`arg_parser_has` all resolve to the first registered entry matching the
queried name; entries after it (duplicates of the same name included)
are never consulted — each result is a function of that first entry
alone, whatever follows it. -/
theorem lookups_first_match_only
    (p : arg_parser_t) (name : String) (pre post : List arg_t) (a : arg_t)
    (hsplit : p.args = pre ++ a :: post)
    (hmatch : a.short_name = some name ∨ a.long_name = some name)
    (hfirst : ∀ b ∈ pre, b.short_name ≠ some name ∧ b.long_name ≠ some name) :
    arg_parser_get_value p name = a.value ∧
    arg_parser_is_flag_set p name = a.set ∧
    arg_parser_has p name =
      (match a.type with
       | arg_type_t.ARG_TYPE_FLAG => a.set
       | arg_type_t.ARG_TYPE_VALUE => a.value.isSome) := by
  have hf : p.args.find? (fun b => arg_matches b name) = some a := by
    rw [hsplit]
    exact find?_first _ a pre post
      (fun b hb => (arg_matches_eq_false_iff b name).mpr (hfirst b hb))
      ((arg_matches_iff a name).mpr hmatch)
  refine ⟨?_, ?_, ?_⟩ <;>
    simp only [arg_parser_get_value, arg_parser_is_flag_set, arg_parser_has, hf]

/-- Concrete instance of C7: with a duplicate `--help` entry registered
second (a set value option carrying a value), all three lookups answer
from the first entry, an unset flag. -/
theorem lookups_first_match_only_witness :
    arg_parser_get_value ⟨[sample_help, sample_dup]⟩ "--help" = none ∧
    arg_parser_is_flag_set ⟨[sample_help, sample_dup]⟩ "--help" = false ∧
    arg_parser_has ⟨[sample_help, sample_dup]⟩ "--help" = false :=
  lookups_first_match_only ⟨[sample_help, sample_dup]⟩ "--help" [] [sample_dup]
    sample_help rfl (Or.inr rfl) (by simp)

/-! ## Entries the parser never touches, and the value/set invariant -/

theorem getElem?_mid {α : Type} (pre post : List α) (x : α) :
    (pre ++ x :: post)[pre.length]? = some x := by
  rw [List.getElem?_append, if_neg (by omega)]
  simp

theorem getElem?_mid_ne {α : Type} (pre post : List α) (x y : α) (j : ℕ)
    (h : j ≠ pre.length) :
    (pre ++ x :: post)[j]? = (pre ++ y :: post)[j]? := by
  rw [List.getElem?_append, List.getElem?_append]
  rcases Nat.lt_or_ge j pre.length with h1 | h1
  · rw [if_pos h1, if_pos h1]
  · rw [if_neg (by omega), if_neg (by omega)]
    have h3 : j - pre.length = (j - pre.length - 1) + 1 := by omega
    rw [h3, List.getElem?_cons_succ, List.getElem?_cons_succ]

theorem ne_mid_of_unmatchable (a m : arg_t) (tok : String)
    (pre post : List arg_t) (j : ℕ)
    (hna : ∀ t, arg_matches a t = false) (hma : arg_matches m tok = true)
    (h : (pre ++ m :: post)[j]? = some a) : j ≠ pre.length := by
  intro hj
  subst hj
  rw [getElem?_mid] at h
  injection h with h
  subst h
  rw [hna tok] at hma
  exact Bool.false_ne_true hma

/-- An entry no token can match keeps its position and its exact state
through the whole token loop. -/
theorem parse_tokens_preserves_unmatchable (a : arg_t)
    (hna : ∀ tok, arg_matches a tok = false) :
    ∀ (args : List arg_t) (toks : List String) (j : ℕ),
      args[j]? = some a → ((parse_tokens args toks).1)[j]? = some a := by
  intro args toks
  induction args, toks using parse_tokens.induct with
  | case1 args => intro j h; simpa [parse_tokens] using h
  | case2 args tok rest hfm => intro j h; simpa [parse_tokens, hfm] using h
  | case3 args tok pre m post hfm hty v rest2 ih =>
    intro j h
    obtain ⟨hsplit, hma, -⟩ := find_match_sound tok args pre post m hfm
    subst hsplit
    have hj := ne_mid_of_unmatchable a m tok pre post j hna hma h
    have hstep : parse_tokens (pre ++ m :: post) (tok :: v :: rest2) =
        parse_tokens (pre ++ { m with set := true, value := some v } :: post)
          rest2 := by
      simp only [parse_tokens, hfm]
      rw [if_pos hty]
    rw [hstep]
    apply ih
    rw [getElem?_mid_ne pre post _ m j hj]
    exact h
  | case4 args tok pre m post hfm hty hreq =>
    intro j h
    obtain ⟨hsplit, hma, -⟩ := find_match_sound tok args pre post m hfm
    subst hsplit
    have hj := ne_mid_of_unmatchable a m tok pre post j hna hma h
    have hstep : parse_tokens (pre ++ m :: post) [tok] =
        (pre ++ { m with set := true } :: post,
         some (parse_error_t.MissingValue tok)) := by
      simp only [parse_tokens, hfm]
      rw [if_pos hty, if_pos hreq]
    rw [hstep]
    rw [getElem?_mid_ne pre post _ m j hj]
    exact h
  | case5 args tok pre m post hfm hty hreq =>
    intro j h
    obtain ⟨hsplit, hma, -⟩ := find_match_sound tok args pre post m hfm
    subst hsplit
    have hj := ne_mid_of_unmatchable a m tok pre post j hna hma h
    have hstep : parse_tokens (pre ++ m :: post) [tok] =
        (pre ++ { m with set := true } :: post, none) := by
      simp only [parse_tokens, hfm]
      rw [if_pos hty, if_neg hreq]
    rw [hstep]
    rw [getElem?_mid_ne pre post _ m j hj]
    exact h
  | case6 args tok rest pre m post hfm hty ih =>
    intro j h
    obtain ⟨hsplit, hma, -⟩ := find_match_sound tok args pre post m hfm
    subst hsplit
    have hj := ne_mid_of_unmatchable a m tok pre post j hna hma h
    have hstep : parse_tokens (pre ++ m :: post) (tok :: rest) =
        parse_tokens (pre ++ { m with set := true } :: post) rest := by
      simp only [parse_tokens, hfm]
      rw [if_neg hty]
    rw [hstep]
    apply ih
    rw [getElem?_mid_ne pre post _ m j hj]
    exact h

/-- Registry invariant of claim C8: a non-NULL `value` occurs only on a
`Value`-kind entry already marked set. -/
def args_value_inv (args : List arg_t) : Prop :=
  ∀ a ∈ args, a.value.isSome = true →
    a.type = arg_type_t.ARG_TYPE_VALUE ∧ a.set = true

theorem args_value_inv_update (pre post : List arg_t) (m m2 : arg_t)
    (h : args_value_inv (pre ++ m :: post))
    (hm2 : m2.value.isSome = true →
      m2.type = arg_type_t.ARG_TYPE_VALUE ∧ m2.set = true) :
    args_value_inv (pre ++ m2 :: post) := by
  intro b hb hv
  rcases List.mem_append.mp hb with h1 | h2
  · exact h b (List.mem_append.mpr (Or.inl h1)) hv
  · rcases List.mem_cons.mp h2 with rfl | h3
    · exact hm2 hv
    · exact h b (List.mem_append.mpr (Or.inr (List.mem_cons.mpr (Or.inr h3)))) hv

theorem parse_tokens_value_inv :
    ∀ (args : List arg_t) (toks : List String), args_value_inv args →
      args_value_inv (parse_tokens args toks).1 := by
  intro args toks
  induction args, toks using parse_tokens.induct with
  | case1 args => intro h; simpa [parse_tokens] using h
  | case2 args tok rest hfm => intro h; simpa [parse_tokens, hfm] using h
  | case3 args tok pre m post hfm hty v rest2 ih =>
    intro h
    obtain ⟨hsplit, hma, -⟩ := find_match_sound tok args pre post m hfm
    subst hsplit
    have hstep : parse_tokens (pre ++ m :: post) (tok :: v :: rest2) =
        parse_tokens (pre ++ { m with set := true, value := some v } :: post)
          rest2 := by
      simp only [parse_tokens, hfm]
      rw [if_pos hty]
    rw [hstep]
    exact ih (args_value_inv_update pre post m _ h (fun _ => ⟨hty, rfl⟩))
  | case4 args tok pre m post hfm hty hreq =>
    intro h
    obtain ⟨hsplit, hma, -⟩ := find_match_sound tok args pre post m hfm
    subst hsplit
    have hstep : parse_tokens (pre ++ m :: post) [tok] =
        (pre ++ { m with set := true } :: post,
         some (parse_error_t.MissingValue tok)) := by
      simp only [parse_tokens, hfm]
      rw [if_pos hty, if_pos hreq]
    rw [hstep]
    exact args_value_inv_update pre post m _ h (fun _ => ⟨hty, rfl⟩)
  | case5 args tok pre m post hfm hty hreq =>
    intro h
    obtain ⟨hsplit, hma, -⟩ := find_match_sound tok args pre post m hfm
    subst hsplit
    have hstep : parse_tokens (pre ++ m :: post) [tok] =
        (pre ++ { m with set := true } :: post, none) := by
      simp only [parse_tokens, hfm]
      rw [if_pos hty, if_neg hreq]
    rw [hstep]
    exact args_value_inv_update pre post m _ h (fun _ => ⟨hty, rfl⟩)
  | case6 args tok rest pre m post hfm hty ih =>
    intro h
    obtain ⟨hsplit, hma, -⟩ := find_match_sound tok args pre post m hfm
    subst hsplit
    have hm_mem : m ∈ pre ++ m :: post :=
      List.mem_append.mpr (Or.inr (List.mem_cons_self m post))
    have hstep : parse_tokens (pre ++ m :: post) (tok :: rest) =
        parse_tokens (pre ++ { m with set := true } :: post) rest := by
      simp only [parse_tokens, hfm]
      rw [if_neg hty]
    rw [hstep]
    exact ih (args_value_inv_update pre post m _ h
      (fun hv => ⟨(h m hm_mem hv).1, rfl⟩))

theorem arg_parser_parse_fst (p : arg_parser_t) (argv : List String) :
    (arg_parser_parse p argv).1 = ⟨(parse_tokens p.args (argv.drop 1)).1⟩ := by
  unfold arg_parser_parse
  split <;> rename_i heq
  · rw [heq]
  · split <;> rw [heq]

/-- Claim C8: every entry whose `value` is non-absent has `Value` kind
and `set = true`; this holds for the registry `arg_parser_create`
returns and is preserved by `arg_parser_add` and by `arg_parser_parse`
(on the registry state parse returns, whether it succeeds or fails). -/
theorem value_present_invariant :
    args_value_inv arg_parser_create.args ∧
    (∀ (p : arg_parser_t) (sn ln : Option String) (ty : arg_type_t)
        (req : Bool) (d : String),
      args_value_inv p.args →
        args_value_inv (arg_parser_add p sn ln ty req d).args) ∧
    (∀ (p : arg_parser_t) (argv : List String),
      args_value_inv p.args →
        args_value_inv ((arg_parser_parse p argv).1).args) := by
  refine ⟨?_, ?_, ?_⟩
  · intro a ha
    simp [arg_parser_create] at ha
  · intro p sn ln ty req d h a ha hv
    simp only [arg_parser_add] at ha
    rcases List.mem_append.mp ha with h1 | h2
    · exact h a h1 hv
    · simp at h2
      subst h2
      simp at hv
  · intro p argv h
    rw [arg_parser_parse_fst]
    exact parse_tokens_value_inv p.args (argv.drop 1) h

/-- Concrete instance of C8: the invariant survives a full parse that
stores a value. -/
theorem value_present_invariant_witness :
    args_value_inv
      ((arg_parser_parse ⟨[sample_help, sample_name]⟩
          ["prog", "-n", "Alice"]).1).args :=
  value_present_invariant.2.2 ⟨[sample_help, sample_name]⟩
    ["prog", "-n", "Alice"]
    (by simp [args_value_inv, sample_help, sample_name])

/-- Claim C9: when the token loop fails with `MissingValue` for a
required value option, the failing entry has already been marked set
(its `value` still absent), so `arg_parser_is_flag_set` on that name
answers true on the returned registry even though parse reported
failure, and `arg_parser_get_value` still answers NULL. -/
theorem missing_value_sets_flag
    (args pre post : List arg_t) (a : arg_t) (tok : String)
    (hsplit : args = pre ++ a :: post)
    (hmatch : a.short_name = some tok ∨ a.long_name = some tok)
    (hfirst : ∀ b ∈ pre, b.short_name ≠ some tok ∧ b.long_name ≠ some tok)
    (htype : a.type = arg_type_t.ARG_TYPE_VALUE)
    (hreq : a.required = true)
    (hval : a.value = none) :
    parse_tokens args [tok] =
      (pre ++ { a with set := true } :: post,
       some (parse_error_t.MissingValue tok)) ∧
    arg_parser_is_flag_set ⟨pre ++ { a with set := true } :: post⟩ tok = true ∧
    arg_parser_get_value ⟨pre ++ { a with set := true } :: post⟩ tok = none := by
  have hm : arg_matches a tok = true := (arg_matches_iff a tok).mpr hmatch
  have hpre : ∀ b ∈ pre, arg_matches b tok = false :=
    fun b hb => (arg_matches_eq_false_iff b tok).mpr (hfirst b hb)
  have hfm : find_match args tok = some (pre, a, post) := by
    rw [hsplit]
    exact find_match_complete tok a pre post hpre hm
  have hm2 : arg_matches { a with set := true } tok = true := hm
  have hfind : (pre ++ { a with set := true } :: post).find?
      (fun b => arg_matches b tok) = some { a with set := true } :=
    find?_first _ _ pre post hpre hm2
  refine ⟨?_, ?_, ?_⟩
  · simp only [parse_tokens, hfm]
    rw [if_pos htype, if_pos hreq]
  · unfold arg_parser_is_flag_set
    rw [hfind]
  · unfold arg_parser_get_value
    rw [hfind]
    exact hval

/-- Concrete instance of C9: after the `MissingValue` failure the failing
option reads as set with no value. -/
theorem missing_value_sets_flag_witness :
    parse_tokens [sample_name] ["-n"] =
      ([{ sample_name with set := true }],
       some (parse_error_t.MissingValue "-n")) ∧
    arg_parser_is_flag_set ⟨[{ sample_name with set := true }]⟩ "-n" = true ∧
    arg_parser_get_value ⟨[{ sample_name with set := true }]⟩ "-n" = none :=
  missing_value_sets_flag [sample_name] [] [] sample_name "-n" rfl
    (Or.inl rfl) (by simp) rfl rfl rfl

/-- Claim C10: an entry whose `short_name` and `long_name` are both
absent matches no token or query string at all; the token loop never
changes it (it keeps its position and state through any parse), and the
three lookups answer on a registry containing it exactly as on the
registry without it — only the required-argument check at the end of
parse can still see its state. -/
theorem unmatchable_entry_never_matched
    (a : arg_t) (hs : a.short_name = none) (hl : a.long_name = none) :
    (∀ tok, arg_matches a tok = false) ∧
    (∀ (args : List arg_t) (toks : List String) (j : ℕ),
        args[j]? = some a → ((parse_tokens args toks).1)[j]? = some a) ∧
    (∀ (pre post : List arg_t) (name : String),
        arg_parser_get_value ⟨pre ++ a :: post⟩ name =
          arg_parser_get_value ⟨pre ++ post⟩ name ∧
        arg_parser_is_flag_set ⟨pre ++ a :: post⟩ name =
          arg_parser_is_flag_set ⟨pre ++ post⟩ name ∧
        arg_parser_has ⟨pre ++ a :: post⟩ name =
          arg_parser_has ⟨pre ++ post⟩ name) := by
  have hna : ∀ tok, arg_matches a tok = false := fun tok =>
    (arg_matches_eq_false_iff a tok).mpr ⟨by simp [hs], by simp [hl]⟩
  refine ⟨hna, parse_tokens_preserves_unmatchable a hna, ?_⟩
  intro pre post name
  have hfind : (pre ++ a :: post).find? (fun b => arg_matches b name) =
      (pre ++ post).find? (fun b => arg_matches b name) := by
    rw [List.find?_append, List.find?_append,
      List.find?_cons_of_neg _ (by simp [hna name])]
  refine ⟨?_, ?_, ?_⟩ <;>
    simp only [arg_parser_get_value, arg_parser_is_flag_set, arg_parser_has,
      hfind]

/-- Concrete instance of C10: a nameless entry placed first is untouched
by a parse that sets the flag behind it. -/
theorem unmatchable_entry_never_matched_witness :
    ((parse_tokens [sample_hidden, sample_help] ["-h"]).1)[0]? =
      some sample_hidden :=
  (unmatchable_entry_never_matched sample_hidden rfl rfl).2.1
    [sample_hidden, sample_help] ["-h"] 0 rfl
